import Mathlib

/-!
Verification of the credential-vault core of the ToolBox repository
(src/tools/other_tools/password_manager.py and the duplicated master-password
flow in src/tools/other_tools/date_counter.py).

Modelling conventions:
  * Bytes are modelled as `Nat` values; byte strings as `List Nat` with an
    explicit `< 256` bound where it matters.
  * The external cryptography library primitives are kept abstract:
    PBKDF2-HMAC-SHA256 is a parameter `kdf : String → List Nat → List Nat`
    (deterministic, as the library guarantees), and the AES block permutation
    is a `BlockCipher` structure whose fields state exactly the properties the
    library guarantees (16-byte blocks, byte-valued output, decryption inverts
    encryption).  Everything the repository itself computes — base64 framing,
    IV prepending, CBC chaining, PKCS7 padding, the session-key fallback, the
    unlock state machine — is modelled concretely from the source.
  * Python functions that raise are modelled with `Option`; randomness
    (`os.urandom`) is passed in as an explicit argument.
-/

set_option autoImplicit false

namespace ToolBox

/-! ## Base64 (models Python `base64.b64encode` / `base64.b64decode`)

`b64Decode` models `base64.b64decode` on a `str` argument with the default
`validate=False`, i.e. `_bytes_from_decode_data` (which raises `ValueError`
on any non-ASCII character) followed by CPython's non-strict
`binascii.a2b_base64`: characters outside the 64-character alphabet are
silently discarded, `=` before the third position of a quad is ignored,
enough padding ends decoding (everything after is ignored), and a dangling
quad at end of input raises (`none`). -/

/-- The standard 64-character base64 alphabet. -/
def b64Alphabet : List Char :=
  "ABCDEFGHIJKLMNOPQRSTUVWXYZabcdefghijklmnopqrstuvwxyz0123456789+/".data

/-- The alphabet character for a 6-bit value. -/
def b64Char (n : Nat) : Char := b64Alphabet.getD n 'A'

/-- Index of a character in the alphabet, if any. -/
def b64ValAux : List Char → Nat → Char → Option Nat
  | [], _, _ => none
  | a :: rest, i, c => if c = a then some i else b64ValAux rest (i + 1) c

/-- The 6-bit value of an alphabet character. -/
def b64Val (c : Char) : Option Nat := b64ValAux b64Alphabet 0 c

/-- Encode a byte list into base64 characters, three bytes per group. -/
def b64EncodeCore : List Nat → List Char
  | [] => []
  | [a] => [b64Char (a / 4), b64Char (a % 4 * 16), '=', '=']
  | [a, b] => [b64Char (a / 4), b64Char (a % 4 * 16 + b / 16), b64Char (b % 16 * 4), '=']
  | a :: b :: d :: rest =>
      b64Char (a / 4) :: b64Char (a % 4 * 16 + b / 16) ::
        b64Char (b % 16 * 4 + d / 64) :: b64Char (d % 64) :: b64EncodeCore rest

/-- Models `base64.b64encode(bs).decode('utf-8')`. -/
def b64Encode (bs : List Nat) : String := String.mk (b64EncodeCore bs)

/-- The quad state machine of CPython's non-strict `binascii.a2b_base64`:
`qp` is the position inside the current quad (0–3), `left` the pending bits
of the current quad, `pads` the count of `=` seen at quad positions ≥ 2.
Alphabet characters emit a byte at quad positions 1–3; other characters are
skipped; `=` at quad position ≥ 2 counts towards the padding that terminates
decoding; a quad left dangling at end of input is an error (`none`). -/
def b64DecodeAux : List Char → Nat → Nat → Nat → Option (List Nat)
  | [], qp, _, _ => if qp = 0 then some [] else none
  | c :: rest, qp, left, pads =>
      if c = '=' then
        if 2 ≤ qp ∧ 4 ≤ qp + (pads + 1) then some []
        else if 2 ≤ qp then b64DecodeAux rest qp left (pads + 1)
        else b64DecodeAux rest qp left pads
      else
        match b64Val c with
        | none => b64DecodeAux rest qp left pads
        | some v =>
            match qp with
            | 0 => b64DecodeAux rest 1 v 0
            | 1 => (b64DecodeAux rest 2 (v % 16) 0).map
                (fun tl => (left * 4 + v / 16) :: tl)
            | 2 => (b64DecodeAux rest 3 (v % 4) 0).map
                (fun tl => (left * 16 + v / 4) :: tl)
            | _ => (b64DecodeAux rest 0 0 0).map
                (fun tl => (left * 64 + v) :: tl)

/-- Models `base64.b64decode(s)` for a `str` argument, default
`validate=False`: reject non-ASCII input (Python's `s.encode('ascii')`
raises), then run the non-strict decoder.  (On the `decrypt` path the source
passes UTF-8 bytes instead, where a non-ASCII token's bytes would be skipped
rather than rejected; the claims constrain `decrypt` only through explicit
decode hypotheses and through tokens produced by `b64Encode`, which are
ASCII, so the two paths agree everywhere the theorems reach.) -/
def b64Decode (s : String) : Option (List Nat) :=
  if s.data.all (fun c => c.toNat < 128) then b64DecodeAux s.data 0 0 0 else none

theorem b64Val_b64Char : ∀ n, n < 64 → b64Val (b64Char n) = some n := by decide

theorem b64Char_ne_pad : ∀ n, n < 64 → b64Char n ≠ '=' := by decide

theorem b64DecodeAux_b64EncodeCore :
    ∀ bs : List Nat, (∀ x ∈ bs, x < 256) → b64DecodeAux (b64EncodeCore bs) 0 0 0 = some bs
  | [], _ => rfl
  | [a], h => by
      have ha : a < 256 := h a (by simp)
      have v1 : b64Val (b64Char (a / 4)) = some (a / 4) := b64Val_b64Char _ (by omega)
      have v2 : b64Val (b64Char (a % 4 * 16)) = some (a % 4 * 16) := b64Val_b64Char _ (by omega)
      have n1 : b64Char (a / 4) ≠ '=' := b64Char_ne_pad _ (by omega)
      have n2 : b64Char (a % 4 * 16) ≠ '=' := b64Char_ne_pad _ (by omega)
      simp only [b64EncodeCore, b64DecodeAux, v1, v2]
      simp [n1, n2]; omega
  | [a, b], h => by
      have ha : a < 256 := h a (by simp)
      have hb : b < 256 := h b (by simp)
      have v1 : b64Val (b64Char (a / 4)) = some (a / 4) := b64Val_b64Char _ (by omega)
      have v2 : b64Val (b64Char (a % 4 * 16 + b / 16)) = some (a % 4 * 16 + b / 16) :=
        b64Val_b64Char _ (by omega)
      have v3 : b64Val (b64Char (b % 16 * 4)) = some (b % 16 * 4) := b64Val_b64Char _ (by omega)
      have n1 : b64Char (a / 4) ≠ '=' := b64Char_ne_pad _ (by omega)
      have n2 : b64Char (a % 4 * 16 + b / 16) ≠ '=' := b64Char_ne_pad _ (by omega)
      have n3 : b64Char (b % 16 * 4) ≠ '=' := b64Char_ne_pad _ (by omega)
      simp only [b64EncodeCore, b64DecodeAux, v1, v2, v3]
      simp [n1, n2, n3]; omega
  | a :: b :: d :: rest, h => by
      have ha : a < 256 := h a (by simp)
      have hb : b < 256 := h b (by simp)
      have hd : d < 256 := h d (by simp)
      have ih := b64DecodeAux_b64EncodeCore rest
        (fun x hx => h x (by simp [hx]))
      have v1 : b64Val (b64Char (a / 4)) = some (a / 4) := b64Val_b64Char _ (by omega)
      have v2 : b64Val (b64Char (a % 4 * 16 + b / 16)) = some (a % 4 * 16 + b / 16) :=
        b64Val_b64Char _ (by omega)
      have v3 : b64Val (b64Char (b % 16 * 4 + d / 64)) = some (b % 16 * 4 + d / 64) :=
        b64Val_b64Char _ (by omega)
      have v4 : b64Val (b64Char (d % 64)) = some (d % 64) := b64Val_b64Char _ (by omega)
      have n1 : b64Char (a / 4) ≠ '=' := b64Char_ne_pad _ (by omega)
      have n2 : b64Char (a % 4 * 16 + b / 16) ≠ '=' := b64Char_ne_pad _ (by omega)
      have n3 : b64Char (b % 16 * 4 + d / 64) ≠ '=' := b64Char_ne_pad _ (by omega)
      have n4 : b64Char (d % 64) ≠ '=' := b64Char_ne_pad _ (by omega)
      simp only [b64EncodeCore, b64DecodeAux, v1, v2, v3, v4]
      simp [n1, n2, n3, n4, ih]; omega

theorem b64Char_ascii (n : Nat) : (b64Char n).toNat < 128 := by
  by_cases h : n < 64
  · exact (by decide : ∀ m, m < 64 → (b64Char m).toNat < 128) n h
  · rw [b64Char, List.getD_eq_default]
    · decide
    · have hlen : b64Alphabet.length = 64 := by decide
      omega

theorem b64EncodeCore_ascii : ∀ bs : List Nat, ∀ c ∈ b64EncodeCore bs, c.toNat < 128
  | [], c, hc => by simp [b64EncodeCore] at hc
  | [a], c, hc => by
      simp only [b64EncodeCore, List.mem_cons, List.not_mem_nil, or_false] at hc
      rcases hc with rfl | rfl | rfl | rfl
      · exact b64Char_ascii _
      · exact b64Char_ascii _
      · decide
      · decide
  | [a, b], c, hc => by
      simp only [b64EncodeCore, List.mem_cons, List.not_mem_nil, or_false] at hc
      rcases hc with rfl | rfl | rfl | rfl
      · exact b64Char_ascii _
      · exact b64Char_ascii _
      · exact b64Char_ascii _
      · decide
  | a :: b :: d :: rest, c, hc => by
      simp only [b64EncodeCore, List.mem_cons] at hc
      rcases hc with rfl | rfl | rfl | rfl | hc
      · exact b64Char_ascii _
      · exact b64Char_ascii _
      · exact b64Char_ascii _
      · exact b64Char_ascii _
      · exact b64EncodeCore_ascii rest c hc

theorem b64Encode_ascii (bs : List Nat) :
    (b64Encode bs).data.all (fun c => c.toNat < 128) = true := by
  rw [List.all_eq_true]
  intro c hc
  simpa using b64EncodeCore_ascii bs c hc

theorem b64Decode_b64Encode (bs : List Nat) (h : ∀ x ∈ bs, x < 256) :
    b64Decode (b64Encode bs) = some bs := by
  rw [b64Decode, if_pos (b64Encode_ascii bs)]
  exact b64DecodeAux_b64EncodeCore bs h

theorem b64Encode_injOn (bs1 bs2 : List Nat)
    (h1 : ∀ x ∈ bs1, x < 256) (h2 : ∀ x ∈ bs2, x < 256)
    (heq : b64Encode bs1 = b64Encode bs2) : bs1 = bs2 := by
  have e1 := b64Decode_b64Encode bs1 h1
  have e2 := b64Decode_b64Encode bs2 h2
  rw [heq, e2] at e1
  exact (Option.some.injEq _ _ ▸ e1).symm

/-! ## Byte-level building blocks: XOR, 16-byte blocking, PKCS7, CBC

These model what `cryptography.hazmat.primitives.padding.PKCS7` and
`modes.CBC` do around the AES block permutation, which itself stays abstract
(a `BlockCipher`). -/

/-- Bytewise XOR of two byte lists (used by CBC chaining). -/
def xorBytes (a b : List Nat) : List Nat := List.zipWith (fun x y => x ^^^ y) a b

theorem length_xorBytes (a b : List Nat) :
    (xorBytes a b).length = min a.length b.length := by
  simp [xorBytes]

theorem xorBytes_xorBytes (a : List Nat) :
    ∀ b : List Nat, a.length = b.length → xorBytes (xorBytes a b) b = a := by
  induction a with
  | nil => intro b h; simp [xorBytes]
  | cons x xs ih =>
      intro b h
      cases b with
      | nil => simp at h
      | cons y ys =>
          have hlen : xs.length = ys.length := by
            simpa using h
          simp only [xorBytes, List.zipWith_cons_cons, List.cons.injEq]
          exact ⟨Nat.xor_cancel_right y x, ih ys hlen⟩

theorem xorBytes_lt (a : List Nat) :
    ∀ b : List Nat, (∀ x ∈ a, x < 256) → (∀ x ∈ b, x < 256) →
      ∀ x ∈ xorBytes a b, x < 256 := by
  induction a with
  | nil => intro b _ _ x hx; simp [xorBytes] at hx
  | cons z zs ih =>
      intro b ha hb x hx
      cases b with
      | nil => simp [xorBytes] at hx
      | cons y ys =>
          simp only [xorBytes, List.zipWith_cons_cons, List.mem_cons] at hx
          rcases hx with hx | hx
          · have h1 : z < 2 ^ 8 := by have := ha z (by simp); omega
            have h2 : y < 2 ^ 8 := by have := hb y (by simp); omega
            have := Nat.xor_lt_two_pow h1 h2
            omega
          · exact ih ys (fun u hu => ha u (by simp [hu]))
              (fun u hu => hb u (by simp [hu])) x hx

/-- Fuel-driven worker for `toBlocks`; the fuel is structurally consumed so
that concrete instances reduce inside the kernel.  With fuel at least the
list length the fuel never runs out. -/
def toBlocksF : Nat → List Nat → List (List Nat)
  | _, [] => []
  | 0, _ :: _ => []
  | fuel + 1, x :: rest => ((x :: rest).take 16) :: toBlocksF fuel ((x :: rest).drop 16)

/-- Split a byte list into consecutive 16-byte blocks (the last block may be
shorter when the length is not a multiple of 16; the repository only chunks
lengths that are multiples of 16). -/
def toBlocks (l : List Nat) : List (List Nat) := toBlocksF l.length l

theorem toBlocksF_irrel (fuel1 : Nat) :
    ∀ (l : List Nat) (fuel2 : Nat), l.length ≤ fuel1 → l.length ≤ fuel2 →
      toBlocksF fuel1 l = toBlocksF fuel2 l := by
  induction fuel1 with
  | zero =>
      intro l fuel2 h1 _
      have hl : l = [] := by
        cases l with
        | nil => rfl
        | cons x rest => simp at h1
      subst hl
      cases fuel2 <;> rfl
  | succ f ih =>
      intro l fuel2 h1 h2
      cases l with
      | nil => cases fuel2 <;> rfl
      | cons x rest =>
          cases fuel2 with
          | zero => simp at h2
          | succ f2 =>
              simp only [toBlocksF]
              congr 1
              apply ih
              · simp only [List.length_drop, List.length_cons]
                simp only [List.length_cons] at h1
                omega
              · simp only [List.length_drop, List.length_cons]
                simp only [List.length_cons] at h2
                omega

/-- The recursive unfolding of `toBlocks` that the proofs work with. -/
theorem toBlocks_eq (l : List Nat) :
    toBlocks l = if l = [] then [] else l.take 16 :: toBlocks (l.drop 16) := by
  cases l with
  | nil => rfl
  | cons x rest =>
      rw [if_neg (by simp)]
      show toBlocksF (rest.length + 1) (x :: rest) = _
      simp only [toBlocksF]
      congr 1
      apply toBlocksF_irrel
      · simp only [List.length_drop, List.length_cons]
        omega
      · exact Nat.le_refl _

theorem flatten_toBlocks (l : List Nat) : (toBlocks l).flatten = l := by
  rw [toBlocks_eq]
  by_cases h : l = []
  · simp [h]
  · rw [if_neg h]
    simp only [List.flatten_cons, flatten_toBlocks (l.drop 16), List.take_append_drop]
termination_by l.length
decreasing_by
  simp only [List.length_drop]
  have : 0 < l.length := List.length_pos.mpr h
  omega

theorem toBlocks_length (l : List Nat) :
    l.length % 16 = 0 → ∀ b ∈ toBlocks l, b.length = 16 := by
  intro hl b hb
  rw [toBlocks_eq] at hb
  by_cases h : l = []
  · simp [h] at hb
  · rw [if_neg h] at hb
    rcases List.mem_cons.mp hb with hb | hb
    · subst hb
      have hlen : 0 < l.length := List.length_pos.mpr h
      simp only [List.length_take]
      omega
    · exact toBlocks_length (l.drop 16) (by simp only [List.length_drop]; omega) b hb
termination_by l.length
decreasing_by
  simp only [List.length_drop]
  have : 0 < l.length := List.length_pos.mpr h
  omega

theorem toBlocks_mem_lt (l : List Nat) (hl : ∀ x ∈ l, x < 256) :
    ∀ b ∈ toBlocks l, ∀ x ∈ b, x < 256 := by
  intro b hb x hx
  apply hl
  rw [← flatten_toBlocks l]
  exact List.mem_flatten.mpr ⟨b, hb, hx⟩

theorem toBlocks_join_blocks (bs : List (List Nat)) (h : ∀ b ∈ bs, b.length = 16) :
    toBlocks bs.flatten = bs := by
  induction bs with
  | nil => rfl
  | cons b rest ih =>
      have hb : b.length = 16 := h b (by simp)
      have hne : b ++ rest.flatten ≠ [] := by
        intro hc
        have := congrArg List.length hc
        simp [hb] at this
      simp only [List.flatten_cons]
      rw [toBlocks_eq, if_neg hne, List.take_left' hb, List.drop_left' hb,
        ih (fun u hu => h u (by simp [hu]))]

theorem flatten_length_mod (bs : List (List Nat)) (h : ∀ b ∈ bs, b.length = 16) :
    bs.flatten.length % 16 = 0 := by
  induction bs with
  | nil => simp
  | cons b rest ih =>
      have hb : b.length = 16 := h b (by simp)
      have := ih (fun u hu => h u (by simp [hu]))
      simp only [List.flatten_cons, List.length_append, hb]
      omega

theorem flatten_mem_lt (bs : List (List Nat)) (h : ∀ b ∈ bs, ∀ x ∈ b, x < 256) :
    ∀ x ∈ bs.flatten, x < 256 := by
  intro x hx
  rcases List.mem_flatten.mp hx with ⟨b, hb, hxb⟩
  exact h b hb x hxb

/-- Abstract interface of the AES-256 block permutation supplied by the
`cryptography` library: a keyed permutation on 16-byte blocks with byte-valued
output, invertible by `dec`. -/
structure BlockCipher where
  enc : List Nat → List Nat → List Nat
  dec : List Nat → List Nat → List Nat
  enc_length : ∀ key b, b.length = 16 → (enc key b).length = 16
  enc_lt : ∀ key b, (∀ x ∈ b, x < 256) → ∀ x ∈ enc key b, x < 256
  dec_enc : ∀ key b, b.length = 16 → dec key (enc key b) = b

/-- CBC-mode encryption over a list of plaintext blocks, chaining from the
previous ciphertext block (initially the IV): models `modes.CBC` encryption. -/
def cbcEncBlocks (C : BlockCipher) (key : List Nat) : List Nat → List (List Nat) → List (List Nat)
  | _, [] => []
  | prev, b :: bs =>
      C.enc key (xorBytes b prev) :: cbcEncBlocks C key (C.enc key (xorBytes b prev)) bs

/-- CBC-mode decryption over a list of ciphertext blocks: models `modes.CBC`
decryption. -/
def cbcDecBlocks (C : BlockCipher) (key : List Nat) : List Nat → List (List Nat) → List (List Nat)
  | _, [] => []
  | prev, c :: cs => xorBytes (C.dec key c) prev :: cbcDecBlocks C key c cs

theorem cbcDecBlocks_cbcEncBlocks (C : BlockCipher) (key : List Nat) :
    ∀ (bs : List (List Nat)) (prev : List Nat),
      (∀ b ∈ bs, b.length = 16) → prev.length = 16 →
      cbcDecBlocks C key prev (cbcEncBlocks C key prev bs) = bs
  | [], _, _, _ => rfl
  | b :: bs, prev, hbs, hprev => by
      have hb : b.length = 16 := hbs b (by simp)
      have hx : (xorBytes b prev).length = 16 := by
        simp [length_xorBytes, hb, hprev]
      have hc : (C.enc key (xorBytes b prev)).length = 16 := C.enc_length key _ hx
      simp only [cbcEncBlocks, cbcDecBlocks, List.cons.injEq]
      constructor
      · rw [C.dec_enc key _ hx]
        exact xorBytes_xorBytes b prev (by omega)
      · exact cbcDecBlocks_cbcEncBlocks C key bs _
          (fun u hu => hbs u (by simp [hu])) hc

theorem cbcEncBlocks_length (C : BlockCipher) (key : List Nat) :
    ∀ (bs : List (List Nat)) (prev : List Nat),
      (∀ b ∈ bs, b.length = 16) → prev.length = 16 →
      ∀ c ∈ cbcEncBlocks C key prev bs, c.length = 16
  | [], _, _, _ => by simp [cbcEncBlocks]
  | b :: bs, prev, hbs, hprev => by
      intro c hc
      have hb : b.length = 16 := hbs b (by simp)
      have hx : (xorBytes b prev).length = 16 := by
        simp [length_xorBytes, hb, hprev]
      simp only [cbcEncBlocks, List.mem_cons] at hc
      rcases hc with hc | hc
      · subst hc; exact C.enc_length key _ hx
      · exact cbcEncBlocks_length C key bs _
          (fun u hu => hbs u (by simp [hu])) (C.enc_length key _ hx) c hc

theorem cbcEncBlocks_lt (C : BlockCipher) (key : List Nat) :
    ∀ (bs : List (List Nat)) (prev : List Nat),
      (∀ b ∈ bs, ∀ x ∈ b, x < 256) → (∀ x ∈ prev, x < 256) →
      ∀ c ∈ cbcEncBlocks C key prev bs, ∀ x ∈ c, x < 256
  | [], _, _, _ => by simp [cbcEncBlocks]
  | b :: bs, prev, hbs, hprev => by
      intro c hc
      have hb : ∀ x ∈ b, x < 256 := hbs b (by simp)
      have hxb : ∀ x ∈ xorBytes b prev, x < 256 := xorBytes_lt b prev hb hprev
      have henc : ∀ x ∈ C.enc key (xorBytes b prev), x < 256 := C.enc_lt key _ hxb
      simp only [cbcEncBlocks, List.mem_cons] at hc
      rcases hc with hc | hc
      · subst hc; exact henc
      · exact cbcEncBlocks_lt C key bs _
          (fun u hu => hbs u (by simp [hu])) henc c hc

/-- PKCS7 padding over 16-byte blocks: models
`padding.PKCS7(128).padder()` (always appends between 1 and 16 bytes, each
equal to the pad length). -/
def pkcs7Pad (data : List Nat) : List Nat :=
  data ++ List.replicate (16 - data.length % 16) (16 - data.length % 16)

/-- PKCS7 unpadding: models `padding.PKCS7(128).unpadder()`; `none` where the
library raises `ValueError` (size not a block multiple, empty input, pad byte
out of range, or inconsistent padding bytes). -/
def pkcs7Unpad (data : List Nat) : Option (List Nat) :=
  if data.length % 16 ≠ 0 ∨ data.length = 0 then none
  else
    let p := data.getLastD 0
    if p = 0 ∨ 16 < p then none
    else if data.drop (data.length - p) = List.replicate p p then
      some (data.take (data.length - p))
    else none

theorem pkcs7Pad_length_mod (d : List Nat) : (pkcs7Pad d).length % 16 = 0 := by
  simp only [pkcs7Pad, List.length_append, List.length_replicate]
  omega

theorem pkcs7Pad_lt (d : List Nat) (h : ∀ x ∈ d, x < 256) :
    ∀ x ∈ pkcs7Pad d, x < 256 := by
  intro x hx
  simp only [pkcs7Pad, List.mem_append] at hx
  rcases hx with hx | hx
  · exact h x hx
  · have := List.eq_of_mem_replicate hx
    omega

theorem pkcs7Unpad_pkcs7Pad (d : List Nat) : pkcs7Unpad (pkcs7Pad d) = some d := by
  have hmod : d.length % 16 < 16 := Nat.mod_lt _ (by omega)
  set p := 16 - d.length % 16 with hpdef
  have hp1 : 1 ≤ p := by omega
  have hp16 : p ≤ 16 := by omega
  have hlen : (pkcs7Pad d).length = d.length + p := by
    simp [pkcs7Pad]
  have hrepl : List.replicate p p = List.replicate (p - 1) p ++ [p] := by
    rw [← List.replicate_succ']
    congr 1
    omega
  have hlast : (pkcs7Pad d).getLastD 0 = p := by
    rw [pkcs7Pad, ← hpdef, hrepl, ← List.append_assoc]
    exact List.getLastD_concat _ _ _
  have hdrop : (pkcs7Pad d).drop ((pkcs7Pad d).length - p) = List.replicate p p := by
    rw [hlen, pkcs7Pad, ← hpdef]
    have : d.length + p - p = d.length := by omega
    rw [this, List.drop_left' rfl]
  have htake : (pkcs7Pad d).take ((pkcs7Pad d).length - p) = d := by
    rw [hlen, pkcs7Pad, ← hpdef]
    have : d.length + p - p = d.length := by omega
    rw [this, List.take_left' rfl]
  rw [pkcs7Unpad]
  rw [if_neg (by rw [hlen]; push_neg; constructor <;> omega)]
  simp only [hlast]
  rw [if_neg (by omega)]
  rw [if_pos hdrop, htake]

/-! ## PasswordEncryption (src/tools/other_tools/password_manager.py, class
`PasswordEncryption`)

Abstract external parameters threaded through the definitions:
  * `kdf` models `PBKDF2HMAC(SHA256, length=32, salt, iterations=100000)
    .derive(password.encode('utf-8'))` — a deterministic function of the
    password and the raw salt bytes;
  * `te` models `str.encode('utf-8')`, `td` models `bytes.decode('utf-8')`
    (`none` where it raises `UnicodeDecodeError`);
  * `C` is the AES block permutation;
  * `appPath` models the module-path constant the default key is built from;
  * randomness (`os.urandom`) is always an explicit argument. -/

namespace PasswordEncryption

def SALT_LENGTH : Nat := 32

def KEY_LENGTH : Nat := 32

def ITERATIONS : Nat := 100000

/-- The fallback "default key" of `get_encryption_key`:
`(app_path * 10)[:32].encode('utf-8')`. -/
def defaultKey (te : String → List Nat) (appPath : String) : List Nat :=
  te (String.mk ((List.replicate 10 appPath.data).flatten.take 32))

/-- Models `PasswordEncryption.get_encryption_key`.  The session key slot is
`session`; Python's truthiness test means an empty byte string also falls back
to the default key. -/
def get_encryption_key (te : String → List Nat) (appPath : String)
    (session : Option (List Nat)) : List Nat :=
  match session with
  | some k => if k = [] then defaultKey te appPath else k
  | none => defaultKey te appPath

/-- Models `PasswordEncryption.create_master_password_hash`.  `salt` is the
`os.urandom(SALT_LENGTH)` output; the function returns the base64-encoded
salt and the base64-encoded PBKDF2 digest of the master password. -/
def create_master_password_hash (kdf : String → List Nat → List Nat)
    (salt : List Nat) (master_password : String) : String × String :=
  (b64Encode salt, b64Encode (kdf master_password salt))

/-- Models `PasswordEncryption.verify_master_password`: decode the stored
salt and hash from base64, re-derive, and compare; any failure (including
undecodable inputs) yields `false` — the Python code catches every exception
and returns `False`. -/
def verify_master_password (kdf : String → List Nat → List Nat)
    (master_password salt hashed_password : String) : Bool :=
  match b64Decode salt, b64Decode hashed_password with
  | some saltBytes, some hashedBytes => kdf master_password saltBytes == hashedBytes
  | _, _ => false

/-- Models `PasswordEncryption.derive_key_from_master_password`: decode the
base64 salt and run the same PBKDF2 derivation (same hash, length and
iteration count as `create_master_password_hash`); `none` where
`base64.b64decode` raises. -/
def derive_key_from_master_password (kdf : String → List Nat → List Nat)
    (master_password salt : String) : Option (List Nat) :=
  (b64Decode salt).map (kdf master_password)

/-- Models `PasswordEncryption.encrypt` with `key=None`: fetch the key from
the session slot (with the default-key fallback), PKCS7-pad the UTF-8
plaintext, AES-CBC-encrypt under the fresh random `iv`, and base64-encode
`iv + ciphertext`. -/
def encrypt (C : BlockCipher) (te : String → List Nat) (appPath : String)
    (session : Option (List Nat)) (iv : List Nat) (password : String) : String :=
  let key := get_encryption_key te appPath session
  let padded := pkcs7Pad (te password)
  let ciphertext := (cbcEncBlocks C key iv (toBlocks padded)).flatten
  b64Encode (iv ++ ciphertext)

/-- Models `PasswordEncryption.decrypt` with `key=None`: base64-decode, split
off the 16-byte IV, AES-CBC-decrypt, strip PKCS7 padding, UTF-8-decode.
`none` models the `ValueError`/`UnicodeDecodeError` raised on a corrupt or
wrong-key token (bad base64, missing IV, non-block-multiple ciphertext,
invalid padding, undecodable bytes). -/
def decrypt (C : BlockCipher) (td : List Nat → Option String)
    (te : String → List Nat) (appPath : String)
    (session : Option (List Nat)) (encrypted_password : String) : Option String :=
  let key := get_encryption_key te appPath session
  match b64Decode encrypted_password with
  | none => none
  | some raw =>
      if raw.length < 16 then none
      else
        let iv := raw.take 16
        let ct := raw.drop 16
        if ct.length % 16 ≠ 0 then none
        else
          match pkcs7Unpad ((cbcDecBlocks C key iv (toBlocks ct)).flatten) with
          | none => none
          | some data => td data

end PasswordEncryption

/-! ## The unlock flow (PasswordManagerDialog / DateCounterDialog)

`VaultState` is the observable state the flow touches: the
`master_passwords` rows, the encrypted-feature rows (`passwords` /
`date_records`, kept generic in `ρ`), and the process-wide session-key slot.
-/

/-- Persistent plus in-memory state seen by the unlock flow. -/
structure VaultState (ρ : Type) where
  master : List (String × String)
  passwords : List ρ
  session : Option (List Nat)
deriving DecidableEq, Repr

/-- Models `PasswordManagerDialog._clear_all_passwords` (and
`_clear_all_dates`): `DELETE FROM passwords` — every vault row is removed,
the master table untouched.  (The source also resets the sqlite autoincrement
counter, which has no observable counterpart here.) -/
def clear_all_passwords {ρ : Type} (st : VaultState ρ) : VaultState ρ :=
  { st with passwords := [] }

/-- One user interaction with the verification prompt. -/
inductive VAction where
  | submit (pw : String)
  | cancel
deriving DecidableEq, Repr

/-- Terminal observation of the verification flow. -/
inductive VOutcome where
  /-- Correct password: session key set, dialog accepted, `True` returned. -/
  | unlocked
  /-- User pressed cancel / closed the prompt: `False` returned at once. -/
  | cancelled (attempts : Nat)
  /-- Fifth consecutive failure: vault rows wiped, `False` returned. -/
  | wiped
  /-- Inputs exhausted with the prompt still open (attempts so far). -/
  | awaiting (attempts : Nat)
  /-- Unreachable: `verify_master_password` succeeded but the salt failed to
  decode inside `derive_key_from_master_password`. -/
  | internalError
deriving DecidableEq, Repr

/-- Models the `while failed_attempts < 5` loop of
`PasswordManagerDialog._verify_master_password` (duplicated verbatim in
`DateCounterDialog`): an empty submission only re-prompts; a correct
password derives and stores the session key and unlocks; a wrong password
increments `failed_attempts`, and the fifth failure wipes all vault rows and
ends the flow; cancelling returns immediately. -/
def runVerify {ρ : Type} (kdf : String → List Nat → List Nat)
    (salt hashed : String) (st : VaultState ρ) :
    Nat → List VAction → VOutcome × VaultState ρ
  | attempts, [] => (.awaiting attempts, st)
  | attempts, .cancel :: _ => (.cancelled attempts, st)
  | attempts, .submit pw :: rest =>
      if pw = "" then runVerify kdf salt hashed st attempts rest
      else if PasswordEncryption.verify_master_password kdf pw salt hashed then
        match PasswordEncryption.derive_key_from_master_password kdf pw salt with
        | some k => (.unlocked, { st with session := some k })
        | none => (.internalError, st)
      else if 5 ≤ attempts + 1 then (.wiped, clear_all_passwords st)
      else runVerify kdf salt hashed st (attempts + 1) rest

/-- Outcome of one submission to the first-run setup dialog. -/
inductive SOutcome where
  /-- Password shorter than 8 characters: warning, dialog stays open. -/
  | tooShort
  /-- Confirmation differs: warning, dialog stays open. -/
  | mismatch
  /-- `execute_non_query` (or the later derivation) raised inside the `try`:
  error box, dialog stays open. -/
  | storeFailed
  /-- Record inserted, session key derived and stored, dialog accepted. -/
  | accepted
deriving DecidableEq, Repr

/-- Models `validate_and_save` inside
`PasswordManagerDialog._set_master_password`: length/confirmation checks
reject without touching anything; otherwise the salt+hash record is
inserted and the session key is derived from the password and the freshly
generated salt.  `insertOk` models whether `execute_non_query` succeeds;
when it raises, the exception handler leaves every piece of state alone. -/
def validate_and_save {ρ : Type} (kdf : String → List Nat → List Nat)
    (salt : List Nat) (insertOk : Bool) (master_password confirm_password : String)
    (st : VaultState ρ) : SOutcome × VaultState ρ :=
  if master_password.length < 8 then (.tooShort, st)
  else if master_password ≠ confirm_password then (.mismatch, st)
  else
    let sh := PasswordEncryption.create_master_password_hash kdf salt master_password
    if insertOk then
      let st1 := { st with master := st.master ++ [sh] }
      match PasswordEncryption.derive_key_from_master_password kdf master_password sh.1 with
      | some k => (.accepted, { st1 with session := some k })
      | none => (.storeFailed, st1)
    else (.storeFailed, st)

/-- Placeholder substituted for a row whose token cannot be decrypted
(`DateCounterDialog.load_dates`). -/
def DECRYPT_FAILED : String := "[解密失败]"

/-- Models the per-record decryption of `DateCounterDialog.load_dates`: each
row `(id, encTitle, encDate)` is decrypted inside its own `try`; if either
field fails, both displayed fields become the placeholder and the loop
continues with the next record. -/
def load_dates (C : BlockCipher) (td : List Nat → Option String)
    (te : String → List Nat) (appPath : String) (session : Option (List Nat))
    (records : List (Nat × String × String)) : List (Nat × String × String) :=
  records.map (fun r =>
    match PasswordEncryption.decrypt C td te appPath session r.2.1 with
    | none => (r.1, DECRYPT_FAILED, DECRYPT_FAILED)
    | some title =>
        match PasswordEncryption.decrypt C td te appPath session r.2.2 with
        | none => (r.1, DECRYPT_FAILED, DECRYPT_FAILED)
        | some date => (r.1, title, date))

/-! ## Shared facts about the token pipeline -/

theorem encrypt_raw_bytes_lt (C : BlockCipher) (key iv : List Nat)
    (te : String → List Nat) (t : String)
    (hivb : ∀ x ∈ iv, x < 256) (htb : ∀ x ∈ te t, x < 256) :
    ∀ x ∈ iv ++ (cbcEncBlocks C key iv (toBlocks (pkcs7Pad (te t)))).flatten, x < 256 := by
  have hpadb : ∀ x ∈ pkcs7Pad (te t), x < 256 := pkcs7Pad_lt _ htb
  have hblocksb : ∀ b ∈ toBlocks (pkcs7Pad (te t)), ∀ x ∈ b, x < 256 :=
    toBlocks_mem_lt _ hpadb
  have hctb : ∀ x ∈ (cbcEncBlocks C key iv (toBlocks (pkcs7Pad (te t)))).flatten, x < 256 :=
    flatten_mem_lt _ (cbcEncBlocks_lt C key _ iv hblocksb hivb)
  intro x hx
  rcases List.mem_append.mp hx with hx | hx
  · exact hivb x hx
  · exact hctb x hx

/-- Core round-trip: under any one session-slot value (so in particular under
one fixed session key, but also under the fallback default key), decrypting
an encrypted token recovers the plaintext. -/
theorem decrypt_encrypt_of_same_session (C : BlockCipher)
    (td : List Nat → Option String) (te : String → List Nat) (appPath : String)
    (session : Option (List Nat)) (iv : List Nat) (t : String)
    (hiv : iv.length = 16) (hivb : ∀ x ∈ iv, x < 256)
    (htb : ∀ x ∈ te t, x < 256) (htd : td (te t) = some t) :
    PasswordEncryption.decrypt C td te appPath session
      (PasswordEncryption.encrypt C te appPath session iv t) = some t := by
  have hpadmod : (pkcs7Pad (te t)).length % 16 = 0 := pkcs7Pad_length_mod _
  have hblocks : ∀ b ∈ toBlocks (pkcs7Pad (te t)), b.length = 16 :=
    toBlocks_length _ hpadmod
  have hctlen : ∀ c ∈
      cbcEncBlocks C (PasswordEncryption.get_encryption_key te appPath session) iv
        (toBlocks (pkcs7Pad (te t))), c.length = 16 :=
    cbcEncBlocks_length C _ _ iv hblocks hiv
  have hraw := encrypt_raw_bytes_lt C
    (PasswordEncryption.get_encryption_key te appPath session) iv te t hivb htb
  have hlen : (iv ++
      (cbcEncBlocks C (PasswordEncryption.get_encryption_key te appPath session) iv
        (toBlocks (pkcs7Pad (te t)))).flatten).length =
      16 + (cbcEncBlocks C (PasswordEncryption.get_encryption_key te appPath session) iv
        (toBlocks (pkcs7Pad (te t)))).flatten.length := by
    simp [hiv]
  have hnlt : ¬(iv ++
      (cbcEncBlocks C (PasswordEncryption.get_encryption_key te appPath session) iv
        (toBlocks (pkcs7Pad (te t)))).flatten).length < 16 := by
    rw [hlen]; omega
  have hmodneg : ¬((cbcEncBlocks C (PasswordEncryption.get_encryption_key te appPath session)
      iv (toBlocks (pkcs7Pad (te t)))).flatten.length % 16 ≠ 0) := by
    have h0 := flatten_length_mod _ hctlen
    omega
  simp only [PasswordEncryption.encrypt, PasswordEncryption.decrypt,
    b64Decode_b64Encode _ hraw, if_neg hnlt, List.take_left' hiv, List.drop_left' hiv,
    if_neg hmodneg, toBlocks_join_blocks _ hctlen,
    cbcDecBlocks_cbcEncBlocks C _ _ iv hblocks hiv,
    flatten_toBlocks, pkcs7Unpad_pkcs7Pad, htd]

/-! ## Concrete instances used by the witnesses

`identityCipher` is a legitimate `BlockCipher` (every field of the abstract
interface holds); `demoTe`/`demoTd` are a concrete encoding pair; `demoKdf`
is a concrete derivation function.  The general theorems are quantified over
these parameters, so any instantiation exercises them. -/

def identityCipher : BlockCipher where
  enc := fun _ b => b
  dec := fun _ b => b
  enc_length := fun _ _ h => h
  enc_lt := fun _ _ h => h
  dec_enc := fun _ _ _ => rfl

def demoTe (s : String) : List Nat := s.data.map Char.toNat

def demoTd (bs : List Nat) : Option String := some (String.mk (bs.map Char.ofNat))

def demoKdf (_p : String) (_salt : List Nat) : List Nat := List.replicate 32 7

def demoIv : List Nat := List.range 16

def demoIv2 : List Nat := List.replicate 16 1

def demoKey : List Nat := List.replicate 32 5

/-- C1 (counterexample): at a concrete password and setup salt, the persisted
verifierHash IS exactly the storage (base64) encoding of the session key that
`derive_key_from_master_password` later derives from the same password and
the stored salt — contradicting the claim that they never coincide. -/
theorem C1_counterexample :
    (PasswordEncryption.derive_key_from_master_password demoKdf ("correct-pw")
        (PasswordEncryption.create_master_password_hash demoKdf
          (List.replicate 32 0) ("correct-pw")).1).map b64Encode
      = some (PasswordEncryption.create_master_password_hash demoKdf
          (List.replicate 32 0) ("correct-pw")).2 := by
  decide

/-- C1 (amended): `create_master_password_hash` and
`derive_key_from_master_password` run the identical PBKDF2 derivation
(same hash, key length and iteration count), so for every derivation
function, password and setup salt, the persisted verifierHash equals the
base64 storage encoding of the session key derived at unlock time from the
same (password, salt) pair: the usable key is persisted, in encoded form. -/
theorem C1_verifierHash_is_encoded_session_key
    (kdf : String → List Nat → List Nat) (salt : List Nat) (p : String)
    (hs : ∀ x ∈ salt, x < 256) :
    (PasswordEncryption.derive_key_from_master_password kdf p
        (PasswordEncryption.create_master_password_hash kdf salt p).1).map b64Encode
      = some (PasswordEncryption.create_master_password_hash kdf salt p).2 := by
  simp [PasswordEncryption.derive_key_from_master_password,
    PasswordEncryption.create_master_password_hash, b64Decode_b64Encode salt hs]

/-- C1 witness: the amended theorem applied at a concrete derivation
function, salt and password. -/
theorem C1_witness :
    (∀ x ∈ List.replicate 32 0, x < 256)
    ∧ (PasswordEncryption.derive_key_from_master_password demoKdf ("pw-witness")
        (PasswordEncryption.create_master_password_hash demoKdf
          (List.replicate 32 0) ("pw-witness")).1).map b64Encode
      = some (PasswordEncryption.create_master_password_hash demoKdf
          (List.replicate 32 0) ("pw-witness")).2 :=
  ⟨by decide,
    C1_verifierHash_is_encoded_session_key demoKdf (List.replicate 32 0)
      ("pw-witness") (by decide)⟩

/-- C2 (code bug, concrete): with no session key set, `get_encryption_key`
silently returns the path-derived default key, and a full
encrypt-then-decrypt cycle succeeds — no "not unlocked" error exists in the
code.  (Spec §9 itself flags this fallback as a defect of the source.) -/
theorem C2_fallback_key_encrypts :
    PasswordEncryption.get_encryption_key demoTe ("toolbox") none
      = PasswordEncryption.defaultKey demoTe ("toolbox")
    ∧ PasswordEncryption.decrypt identityCipher demoTd demoTe ("toolbox") none
        (PasswordEncryption.encrypt identityCipher demoTe ("toolbox") none demoIv
          ("secret-1"))
      = some ("secret-1") := by
  constructor
  · rfl
  · decide

/-- C4: round-trip — for every plaintext (the theorem is quantified over all
strings, so empty, long and multibyte plaintexts are all covered), 32-byte
session key and 16-byte IV, decrypting the encrypted token under the same
session key returns the plaintext. -/
theorem C4_decrypt_encrypt_roundtrip (C : BlockCipher)
    (td : List Nat → Option String) (te : String → List Nat) (appPath : String)
    (k iv : List Nat) (t : String)
    (_hk : k.length = 32) (hiv : iv.length = 16) (hivb : ∀ x ∈ iv, x < 256)
    (htb : ∀ x ∈ te t, x < 256) (htd : td (te t) = some t) :
    PasswordEncryption.decrypt C td te appPath (some k)
      (PasswordEncryption.encrypt C te appPath (some k) iv t) = some t :=
  decrypt_encrypt_of_same_session C td te appPath (some k) iv t hiv hivb htb htd

/-- C4 witness: the round-trip at a concrete cipher, key, IV and a plaintext
containing a multibyte character. -/
theorem C4_witness :
    demoKey.length = 32
    ∧ demoIv.length = 16
    ∧ (∀ x ∈ demoIv, x < 256)
    ∧ (∀ x ∈ demoTe ("pässwörd"), x < 256)
    ∧ demoTd (demoTe ("pässwörd")) = some ("pässwörd")
    ∧ PasswordEncryption.decrypt identityCipher demoTd demoTe ("app")
        (some demoKey)
        (PasswordEncryption.encrypt identityCipher demoTe ("app")
          (some demoKey) demoIv ("pässwörd"))
      = some ("pässwörd") :=
  ⟨by decide, by decide, by decide, by decide, by decide,
    C4_decrypt_encrypt_roundtrip identityCipher demoTd demoTe ("app")
      demoKey demoIv ("pässwörd")
      (by decide) (by decide) (by decide) (by decide) (by decide)⟩

/-- C5: first-run setup — a candidate shorter than 8 characters, or one
whose confirmation differs, is rejected with no record inserted, no session
key set and the dialog still open (and setup has no attempt counter to
touch); a matching pair of length ≥ 8 inserts exactly one master record
and sets the session key derived from that password and the freshly
generated salt, accepting the dialog (Unlocked). -/
theorem C5_setup_validation {ρ : Type} (kdf : String → List Nat → List Nat)
    (salt : List Nat) (io : Bool) (m c : String) (st : VaultState ρ)
    (hs : ∀ x ∈ salt, x < 256) :
    (m.length < 8 → validate_and_save kdf salt io m c st = (SOutcome.tooShort, st))
    ∧ (8 ≤ m.length → m ≠ c →
        validate_and_save kdf salt io m c st = (SOutcome.mismatch, st))
    ∧ (8 ≤ m.length → m = c → st.master = [] →
        validate_and_save kdf salt true m c st
          = (SOutcome.accepted,
              { master := [(b64Encode salt, b64Encode (kdf m salt))],
                passwords := st.passwords,
                session := some (kdf m salt) })) := by
  refine ⟨fun hshort => ?_, fun hlong hne => ?_, fun hlong heq hempty => ?_⟩
  · simp [validate_and_save, hshort]
  · have hnl : ¬m.length < 8 := by omega
    simp [validate_and_save, hnl, hne]
  · subst heq
    have hnl : ¬m.length < 8 := by omega
    simp [validate_and_save, hnl, hempty,
      PasswordEncryption.create_master_password_hash,
      PasswordEncryption.derive_key_from_master_password,
      b64Decode_b64Encode salt hs]

/-- C5 witness: the setup theorem applied at a concrete salt and state:
"short" (5 chars) is rejected, a mismatching pair is rejected, and
"longenough1" twice creates exactly one record and a session key. -/
theorem C5_witness :
    (∀ x ∈ List.replicate 32 0, x < 256)
    ∧ ((("short" : String).length < 8 →
        validate_and_save demoKdf (List.replicate 32 0) true ("short") ("short")
          (VaultState.mk [] [] none : VaultState Nat) = (SOutcome.tooShort,
            (VaultState.mk [] [] none : VaultState Nat)))
      ∧ (8 ≤ ("short" : String).length → ("short" : String) ≠ "short" →
          validate_and_save demoKdf (List.replicate 32 0) true ("short") ("short")
            (VaultState.mk [] [] none : VaultState Nat) = (SOutcome.mismatch,
              (VaultState.mk [] [] none : VaultState Nat)))
      ∧ (8 ≤ ("short" : String).length → ("short" : String) = "short" →
          (VaultState.mk [] [] none : VaultState Nat).master = [] →
          validate_and_save demoKdf (List.replicate 32 0) true ("short") ("short")
            (VaultState.mk [] [] none : VaultState Nat)
            = (SOutcome.accepted,
                { master := [(b64Encode (List.replicate 32 0),
                    b64Encode (demoKdf ("short") (List.replicate 32 0)))],
                  passwords := ([] : List Nat),
                  session := some (demoKdf ("short") (List.replicate 32 0)) })))
    ∧ ((("longenough1" : String).length < 8 →
        validate_and_save demoKdf (List.replicate 32 0) true ("longenough1")
          ("longenough1") (VaultState.mk [] [] none : VaultState Nat)
          = (SOutcome.tooShort, (VaultState.mk [] [] none : VaultState Nat)))
      ∧ (8 ≤ ("longenough1" : String).length → ("longenough1" : String) ≠ "longenough1" →
          validate_and_save demoKdf (List.replicate 32 0) true ("longenough1")
            ("longenough1") (VaultState.mk [] [] none : VaultState Nat)
            = (SOutcome.mismatch, (VaultState.mk [] [] none : VaultState Nat)))
      ∧ (8 ≤ ("longenough1" : String).length → ("longenough1" : String) = "longenough1" →
          (VaultState.mk [] [] none : VaultState Nat).master = [] →
          validate_and_save demoKdf (List.replicate 32 0) true ("longenough1")
            ("longenough1") (VaultState.mk [] [] none : VaultState Nat)
            = (SOutcome.accepted,
                { master := [(b64Encode (List.replicate 32 0),
                    b64Encode (demoKdf ("longenough1") (List.replicate 32 0)))],
                  passwords := ([] : List Nat),
                  session := some (demoKdf ("longenough1") (List.replicate 32 0)) }))) :=
  ⟨by decide,
    C5_setup_validation demoKdf (List.replicate 32 0) true ("short") ("short")
      (VaultState.mk [] [] none) (by decide),
    C5_setup_validation demoKdf (List.replicate 32 0) true ("longenough1")
      ("longenough1") (VaultState.mk [] [] none) (by decide)⟩

/-- C6: under one session key, encrypting the same plaintext under two
distinct freshly random 16-byte IVs produces two distinct tokens, and each
token decrypts back to the plaintext. -/
theorem C6_fresh_iv_distinct_tokens (C : BlockCipher)
    (td : List Nat → Option String) (te : String → List Nat) (appPath : String)
    (k iv1 iv2 : List Nat) (t : String)
    (hiv1 : iv1.length = 16) (hiv2 : iv2.length = 16)
    (hb1 : ∀ x ∈ iv1, x < 256) (hb2 : ∀ x ∈ iv2, x < 256)
    (hne : iv1 ≠ iv2)
    (htb : ∀ x ∈ te t, x < 256) (htd : td (te t) = some t) :
    PasswordEncryption.encrypt C te appPath (some k) iv1 t
      ≠ PasswordEncryption.encrypt C te appPath (some k) iv2 t
    ∧ PasswordEncryption.decrypt C td te appPath (some k)
        (PasswordEncryption.encrypt C te appPath (some k) iv1 t) = some t
    ∧ PasswordEncryption.decrypt C td te appPath (some k)
        (PasswordEncryption.encrypt C te appPath (some k) iv2 t) = some t := by
  refine ⟨?_,
    decrypt_encrypt_of_same_session C td te appPath (some k) iv1 t hiv1 hb1 htb htd,
    decrypt_encrypt_of_same_session C td te appPath (some k) iv2 t hiv2 hb2 htb htd⟩
  intro heq
  apply hne
  have hr1 := encrypt_raw_bytes_lt C
    (PasswordEncryption.get_encryption_key te appPath (some k)) iv1 te t hb1 htb
  have hr2 := encrypt_raw_bytes_lt C
    (PasswordEncryption.get_encryption_key te appPath (some k)) iv2 te t hb2 htb
  simp only [PasswordEncryption.encrypt] at heq
  have hlists := b64Encode_injOn _ _ hr1 hr2 heq
  have ht := congrArg (List.take 16) hlists
  rwa [List.take_left' hiv1, List.take_left' hiv2] at ht

/-- C6 witness: the theorem at a concrete key, plaintext and two distinct
concrete IVs. -/
theorem C6_witness :
    demoIv.length = 16 ∧ demoIv2.length = 16
    ∧ (∀ x ∈ demoIv, x < 256) ∧ (∀ x ∈ demoIv2, x < 256)
    ∧ demoIv ≠ demoIv2
    ∧ (∀ x ∈ demoTe ("topsecret"), x < 256)
    ∧ demoTd (demoTe ("topsecret")) = some ("topsecret")
    ∧ (PasswordEncryption.encrypt identityCipher demoTe ("app") (some demoKey)
          demoIv ("topsecret")
        ≠ PasswordEncryption.encrypt identityCipher demoTe ("app") (some demoKey)
          demoIv2 ("topsecret")
      ∧ PasswordEncryption.decrypt identityCipher demoTd demoTe ("app")
          (some demoKey)
          (PasswordEncryption.encrypt identityCipher demoTe ("app") (some demoKey)
            demoIv ("topsecret")) = some ("topsecret")
      ∧ PasswordEncryption.decrypt identityCipher demoTd demoTe ("app")
          (some demoKey)
          (PasswordEncryption.encrypt identityCipher demoTe ("app") (some demoKey)
            demoIv2 ("topsecret")) = some ("topsecret")) :=
  ⟨by decide, by decide, by decide, by decide, by decide, by decide, by decide,
    C6_fresh_iv_distinct_tokens identityCipher demoTd demoTe ("app") demoKey
      demoIv demoIv2 ("topsecret") (by decide) (by decide) (by decide) (by decide)
      (by decide) (by decide) (by decide)⟩

/-- C7: when the verifier insert raises (`execute_non_query` fails inside the
`try`), the handler leaves the whole state untouched: no master record, and
the session-key store stays unpopulated. -/
theorem C7_failed_insert_leaves_no_state {ρ : Type}
    (kdf : String → List Nat → List Nat) (salt : List Nat) (m c : String)
    (st : VaultState ρ) (hs : st.session = none) :
    (validate_and_save kdf salt false m c st).2 = st
    ∧ (validate_and_save kdf salt false m c st).2.session = none := by
  have he : (validate_and_save kdf salt false m c st).2 = st := by
    unfold validate_and_save
    split_ifs <;> first | rfl | contradiction
  exact ⟨he, by rw [he]; exact hs⟩

/-- C7 witness: the theorem at a concrete empty state and valid password. -/
theorem C7_witness :
    (VaultState.mk [] [] none : VaultState Nat).session = none
    ∧ ((validate_and_save demoKdf (List.replicate 32 0) false ("longenough1")
          ("longenough1") (VaultState.mk [] [] none : VaultState Nat)).2
        = VaultState.mk [] [] none
      ∧ (validate_and_save demoKdf (List.replicate 32 0) false ("longenough1")
          ("longenough1") (VaultState.mk [] [] none : VaultState Nat)).2.session
        = none) :=
  ⟨rfl, C7_failed_insert_leaves_no_state demoKdf (List.replicate 32 0)
    ("longenough1") ("longenough1") (VaultState.mk [] [] none) rfl⟩

/-- C8: in the listing loop, a row whose token fails to decrypt gets the
placeholder in both secret fields, while every other row still appears, with
successfully decrypted rows showing their plaintexts; the listing keeps one
output row per input row and never aborts (the function is total). -/
theorem C8_listing_placeholder_per_row (C : BlockCipher)
    (td : List Nat → Option String) (te : String → List Nat) (appPath : String)
    (session : Option (List Nat)) (records : List (Nat × String × String))
    (i j : Nat) (r rj : Nat × String × String) (tj dj : String)
    (hr : records[i]? = some r)
    (hfail : PasswordEncryption.decrypt C td te appPath session r.2.1 = none)
    (hj : records[j]? = some rj)
    (hjt : PasswordEncryption.decrypt C td te appPath session rj.2.1 = some tj)
    (hjd : PasswordEncryption.decrypt C td te appPath session rj.2.2 = some dj) :
    (load_dates C td te appPath session records).length = records.length
    ∧ (load_dates C td te appPath session records)[i]?
        = some (r.1, DECRYPT_FAILED, DECRYPT_FAILED)
    ∧ (load_dates C td te appPath session records)[j]? = some (rj.1, tj, dj) := by
  refine ⟨by simp [load_dates], ?_, ?_⟩
  · simp [load_dates, List.getElem?_map, hr, hfail]
  · simp [load_dates, List.getElem?_map, hj, hjt, hjd]

def demoTokenTitle : String :=
  PasswordEncryption.encrypt identityCipher demoTe ("app") (some demoKey) demoIv
    ("hello")

def demoTokenDate : String :=
  PasswordEncryption.encrypt identityCipher demoTe ("app") (some demoKey) demoIv2
    ("2024-01-01")

def demoRecords : List (Nat × String × String) :=
  [(1, demoTokenTitle, demoTokenDate),
   (2, "!!", demoTokenDate),
   (3, demoTokenTitle, demoTokenDate)]

/-- C8 witness: a concrete three-row listing whose middle row holds an
undecodable token: it is rendered with placeholders, the other rows decrypt
normally, and the row count is preserved. -/
theorem C8_witness :
    demoRecords[1]? = some (2, "!!", demoTokenDate)
    ∧ PasswordEncryption.decrypt identityCipher demoTd demoTe ("app")
        (some demoKey) ("!!") = none
    ∧ demoRecords[0]? = some (1, demoTokenTitle, demoTokenDate)
    ∧ PasswordEncryption.decrypt identityCipher demoTd demoTe ("app")
        (some demoKey) demoTokenTitle = some ("hello")
    ∧ PasswordEncryption.decrypt identityCipher demoTd demoTe ("app")
        (some demoKey) demoTokenDate = some ("2024-01-01")
    ∧ ((load_dates identityCipher demoTd demoTe ("app") (some demoKey)
          demoRecords).length = demoRecords.length
      ∧ (load_dates identityCipher demoTd demoTe ("app") (some demoKey)
          demoRecords)[1]? = some (2, DECRYPT_FAILED, DECRYPT_FAILED)
      ∧ (load_dates identityCipher demoTd demoTe ("app") (some demoKey)
          demoRecords)[0]? = some (1, "hello", "2024-01-01")) :=
  ⟨by decide, by decide, by decide, by decide, by decide,
    C8_listing_placeholder_per_row identityCipher demoTd demoTe ("app")
      (some demoKey) demoRecords 1 0 (2, "!!", demoTokenDate)
      (1, demoTokenTitle, demoTokenDate) ("hello") ("2024-01-01")
      (by decide) (by decide) (by decide) (by decide) (by decide)⟩

/-- C9: cancelling the verification prompt in state `AwaitingVerification(n)`
ends the flow at once in the cancelled outcome: the attempt counter is still
`n`, the state (vault rows, master record, session slot) is untouched, no
wipe happens, and the outcome is distinct from both the wiped and the
unlocked outcome. -/
theorem C9_cancel_preserves_state {ρ : Type}
    (kdf : String → List Nat → List Nat) (salt hashed : String)
    (st : VaultState ρ) (n : Nat) (rest : List VAction) :
    runVerify kdf salt hashed st n (VAction.cancel :: rest)
      = (VOutcome.cancelled n, st)
    ∧ VOutcome.cancelled n ≠ VOutcome.wiped
    ∧ VOutcome.cancelled n ≠ VOutcome.unlocked :=
  ⟨rfl, by simp, by simp⟩

/-- C10: `verify_master_password` is a total boolean function of its string
inputs (any decode failure is caught and yields `false`); it returns `true`
exactly when both stored values decode and the derivation of the candidate
under the decoded salt equals the decoded verifier hash. -/
theorem C10_verify_total_boolean (kdf : String → List Nat → List Nat)
    (m salt hashed : String) :
    PasswordEncryption.verify_master_password kdf m salt hashed = true
      ↔ ∃ sb hb, b64Decode salt = some sb ∧ b64Decode hashed = some hb
          ∧ kdf m sb = hb := by
  unfold PasswordEncryption.verify_master_password
  cases h1 : b64Decode salt with
  | none => simp
  | some sb =>
      cases h2 : b64Decode hashed with
      | none => simp
      | some hb => simp [beq_iff_eq]

end ToolBox
